import Mathlib

/-
Verification of the md3d document-to-scene pipeline (src/md3d/main.py).

The pure fragments of the code are shallowly embedded:
* the spatial-layout arithmetic of `import_and_position_images` and
  `import_and_transform_svgs` over exact rationals (the Python floats carry
  the same field expressions; we reason about the expressions themselves);
* the installer state machine (`InkscapeInstaller.is_installed`,
  `MacOSInkscapeInstaller.install`, and the guard in `main`) over an explicit
  record of the file-system facts the code reads and writes;
* the string-processing functions (`download_images_from_markdown`,
  `split_markdown`) over `List Char`, with Python's mutate-while-iterating
  loop modelled by the same index-based scan the interpreter performs.
-/

namespace Md3d

/-! ### Layout arithmetic of `import_and_position_images`

The function receives `text_plane_width = 2` by default (`main` calls it with
all defaults).  For the image at index `i` with intrinsic aspect ratio
`a = img.width / img.height` it sets `plane.scale.x = a` (so the unit plane's
`dimensions.x` is `1 * a`) and
`plane.location.x = right_edge_text_plane - dimensions.x / 2 + i / scale.x`. -/

/-- Default `text_plane_width` argument of `import_and_position_images`. -/
def text_plane_width : ℚ := 2

/-- Default `offset_x` of `import_and_transform_svgs`: the slide pitch. -/
def slidePitch : ℚ := 3

/-- Source: `plane.scale.x = img_aspect` (aspect ratio `a = img.width / img.height`). -/
def imgScaleX (a : ℚ) : ℚ := a

/-- Source: `plane.dimensions.x` of the unit plane after `scale.x := a`. -/
def imagePlaneDimX (a : ℚ) : ℚ := 1 * imgScaleX a

/-- Source: `text_plane_center_x = i * text_plane_width`. -/
def textPlaneCenterX (i : ℕ) (w : ℚ) : ℚ := (i : ℚ) * w

/-- Source: `right_edge_text_plane = text_plane_center_x + (text_plane_width / 2)`. -/
def rightEdgeTextPlane (i : ℕ) (w : ℚ) : ℚ := textPlaneCenterX i w + w / 2

/-- Source: `plane.location.x = right_edge_text_plane - (plane.dimensions.x / 2) + i / plane.scale.x`. -/
def imagePlaneLocX (i : ℕ) (a w : ℚ) : ℚ :=
  rightEdgeTextPlane i w - imagePlaneDimX a / 2 + (i : ℚ) / imgScaleX a

/-- The computed right edge of the image panel: its center x plus half its width. -/
def imagePlaneRightEdge (i : ℕ) (a w : ℚ) : ℚ :=
  imagePlaneLocX i a w + imagePlaneDimX a / 2

/-! ### Camera keyframes of `import_and_transform_svgs`

For slide `i` the function creates one background plane, imports the i-th SVG
(yielding `curves i` further new objects), and, inside the loop over the new
objects, runs `frame_set(i+1)`, sets `camera.location.x = offset_x * i` and
inserts a location keyframe.  Since the plane is always among the new objects,
each slide index contributes at least one keyframe event. -/

/-- The sequence of camera keyframe insertions performed by
`import_and_transform_svgs` on `n` SVG files, where importing the i-th SVG
yields `curves i` curve objects (the background plane always counts as one
further new object).  Each event is `(frame number, camera x)`. -/
def cameraKeyframeEvents (n : ℕ) (curves : ℕ → ℕ) (offset : ℚ) : List (ℕ × ℚ) :=
  (List.range n).flatMap (fun i => List.replicate (1 + curves i) (i + 1, offset * (i : ℚ)))

/-! ### Backdrop sizing in `main` -/

/-- Function `convert_to_svgs` appends one SVG filename per markdown section,
empty sections included (`section_{i}.svg` under the base directory). -/
def convert_to_svgs (base : List Char) (sections : List (List Char)) : List (List Char) :=
  (List.range sections.length).map
    (fun i => base ++ '/' :: ("section_" ++ toString i ++ ".svg").data)

/-- Source: `backdrop_width = len(svg_files) * 6` (`main`). -/
def backdrop_width (svg_files : List (List Char)) : ℤ := (svg_files.length : ℤ) * 6

/-- Source: `backdrop_height = 10` (`main`). -/
def backdrop_height : ℤ := 10

/-- Modelled from the spec: "slideCount == len(nonempty sections)" — the
slide count the specification prescribes, counting only non-empty sections.
(The code itself derives its count from `len(svg_files)`.) -/
def slideCountSpec (sections : List (List Char)) : ℕ :=
  (sections.filter (fun s => !s.isEmpty)).length

/-! ### Installer state machine

`InkscapeInstaller.is_installed` (the class actually inherited by the three
platform installers) returns `install_path.exists()`; its `__init__` does not
create the path.  `MacOSInkscapeInstaller.install` runs
`install_path.mkdir(parents=True, exist_ok=True)` *before* the download and,
on a non-200 response, only prints a message — it neither removes the
directory nor raises.  `main` guards with
`if not inkscape.is_installed(): inkscape.install()`. -/

structure InstallerState where
  /-- Whether the path `~/.md3d/inkscape` exists. -/
  installPathExists : Bool
  /-- the downloaded `Inkscape.dmg` has been written -/
  dmgWritten : Bool
  /-- the dmg contents have been extracted into the install path -/
  appExtracted : Bool
deriving DecidableEq

/-- Fresh machine: nothing downloaded, nothing installed. -/
def freshState : InstallerState := ⟨false, false, false⟩

/-- Method `InkscapeInstaller.is_installed`: `self.install_path.exists()`. -/
def is_installed (s : InstallerState) : Bool := s.installPathExists

/-- Method `MacOSInkscapeInstaller.install`, given the HTTP status of the download:
`mkdir` first, then on 200 write the dmg and extract it; on any other status
print a failure message and return. -/
def macosInstall (s : InstallerState) (status : ℕ) : InstallerState :=
  let s1 : InstallerState := { s with installPathExists := true }
  if status = 200 then { s1 with dmgWritten := true, appExtracted := true } else s1

/-- The guard in `main`: `if not inkscape.is_installed(): inkscape.install()`.
Returns the resulting state and whether `install()` was invoked (i.e. whether
any network download / extraction work was performed). -/
def ensureInstalled (install : InstallerState → InstallerState) (s : InstallerState) :
    InstallerState × Bool :=
  if is_installed s then (s, false) else (install s, true)

/-! ### String machinery

Python strings are modelled as `List Char`.  `str.split(sep)` for a non-empty
literal separator is the greedy leftmost non-overlapping split; `sep.join` is
its inverse. -/

/-- Python `s.split(c)` for a single-character separator (used with `'\n'`). -/
def splitChar (sep : Char) : List Char → List (List Char)
  | [] => [[]]
  | c :: rest =>
    if c = sep then [] :: splitChar sep rest
    else
      match splitChar sep rest with
      | [] => [[c]]
      | s :: ss => (c :: s) :: ss

/-- Python `sep.join(parts)`. -/
def joinSep (sep : List Char) : List (List Char) → List Char
  | [] => []
  | [s] => s
  | s :: t :: ss => s ++ sep ++ joinSep sep (t :: ss)

/-- The literal section delimiter `'---'` of `split_markdown`. -/
def dashSep : List Char := ['-', '-', '-']

/-- Function `split_markdown`: Python `md_content.split('---')` — greedy leftmost
non-overlapping split on the literal three-dash token. -/
def split_markdown : List Char → List (List Char)
  | '-' :: '-' :: '-' :: rest => [] :: split_markdown rest
  | c :: rest =>
    (match split_markdown rest with
     | [] => [[c]]
     | s :: ss => (c :: s) :: ss)
  | [] => [[]]

/-- The number of (greedy leftmost non-overlapping) occurrences of `'---'`
in a document: the number of delimiters `str.split` consumes. -/
def countDashes : List Char → ℕ
  | '-' :: '-' :: '-' :: rest => countDashes rest + 1
  | _ :: rest => countDashes rest
  | [] => 0

/-- Index of the first occurrence of character `c` in `l`, counting from `k`
(helper for Python `str.find`). -/
def findFromIdx (c : Char) : List Char → ℕ → Option ℕ
  | [], _ => none
  | a :: t, k => if a = c then some k else findFromIdx c t (k + 1)

/-- Python `line.find(c, start)` for a single-character needle: the index of
the first occurrence of `c` at or after `start`. -/
def findCharFrom (c : Char) (start : ℕ) (l : List Char) : Option ℕ :=
  (findFromIdx c (l.drop start) 0).map (· + start)

/-- Python `line.find(sub)`: index of the first occurrence of `sub`. -/
def findSub (sub : List Char) : List Char → Option ℕ
  | [] => if sub = [] then some 0 else none
  | c :: t =>
    if List.isPrefixOf sub (c :: t) then some 0
    else (findSub sub t).map (· + 1)

/-- Index of the last occurrence of character `c` in `l` (the "final `)`"
of the specification's locator description). -/
def findLastIdx (c : Char) (l : List Char) : Option ℕ :=
  (findFromIdx c l.reverse 0).map (fun j => l.length - 1 - j)

/-- The embedded-image marker test of `download_images_from_markdown`:
`line.startswith('![') and '](' in line and line.endswith(')')`. -/
def isMarker (line : List Char) : Bool :=
  List.isPrefixOf ['!', '['] line && (findSub [']', '('] line).isSome
    && line.getLast? == some ')'

/-- The locator extraction of `download_images_from_markdown`:
`link_start = line.find('](') + 2; link_end = line.find(')', link_start);
image_link = line[link_start:link_end]`.  A failed `find` returns `-1` in
Python, making `link_start = 1` resp. the slice `line[link_start:-1]`; both
fallbacks are reproduced although the marker test rules them out. -/
def extractLocator (line : List Char) : List Char :=
  let start : ℕ :=
    match findSub [']', '('] line with
    | some i => i + 2
    | none => 1
  match findCharFrom ')' start line with
  | some e => (line.take e).drop start
  | none => (line.take (line.length - 1)).drop start

/-- Modelled from the spec: "the substring between `](` and the final `)` of
the line" — the locator as the specification describes it, for comparison
with `extractLocator`. -/
def specLocator (line : List Char) : List Char :=
  match findSub [']', '('] line, findLastIdx ')' line with
  | some i, some j => (line.take j).drop (i + 2)
  | _, _ => []

/-! ### The extraction scan

Python iterates `for line in lines` by index while `lines.remove(line)`
mutates the list being iterated: the interpreter keeps a cursor `k`, reads
`lines[k]`, and `remove` deletes the first element equal to the current line,
shifting later elements left so that the line after a match is never
examined.  `scanAux` is that loop verbatim: cursor `k`, current list `ls`,
collected links. -/

def scanAux (links : List (List Char)) (ls : List (List Char)) (k : ℕ) :
    List (List Char) × List (List Char) :=
  if h : k < ls.length then
    let line := ls[k]
    if isMarker line then
      scanAux (links ++ [extractLocator line]) (ls.erase line) (k + 1)
    else
      scanAux links ls (k + 1)
  else
    (links, ls)
termination_by ls.length - k
decreasing_by
  · have hmem : ls[k] ∈ ls := List.getElem_mem h
    have := List.length_erase_of_mem hmem
    omega
  · omega

/-- Errors the download loop can raise.  On a missing local file the code
catches `FileNotFoundError` and executes `raise(f"...")`, which raises a
`TypeError` (a string is not an exception); on a non-200 remote response with
no previously bound `img_path`/`img_data` the `open(img_path, ...)` line
raises `NameError`. -/
inductive PyError where
  | nameError : PyError
  | typeError : PyError
deriving DecidableEq

/-- Python `link.startswith('http')`. -/
def httpLink (link : List Char) : Bool := List.isPrefixOf "http".data link

/-- Python `os.path.basename(urlparse(link).path)`: everything after the last `/`
(links in scope carry no query or fragment component). -/
def urlBasename (link : List Char) : List Char :=
  (link.reverse.takeWhile (fun c => c ≠ '/')).reverse

/-- The asset path the download loop appends for one resolved link: a remote
link is materialized under the asset directory by its basename
(`img_path = base_dir / img_name`); a local link is written back to its own
path (`img_path = Path(link)`), and `str(img_path)` is appended either way. -/
def assetPath (base : List Char) (link : List Char) : List Char :=
  if httpLink link then base ++ '/' :: urlBasename link else link

/-- The download loop of `download_images_from_markdown`.  `net` maps a URL
to the `(status_code, content)` of `requests.get`; `disk` maps a local path
to its bytes (or `none` when the file is missing); `base` is `base_dir`.
`imgPath?`/`imgData?` carry the Python local variables `img_path`/`img_data`,
which are *not* rebound when the response status is not 200 — the subsequent
`open(img_path, 'wb')`/`f.write(img_data)` then reuse the previous
iteration's values, or raise `NameError` if none exist. -/
def downloadLoop (net : List Char → ℕ × List ℕ) (disk : List Char → Option (List ℕ))
    (base : List Char) :
    List (List Char) → Option (List Char) → Option (List ℕ) →
      Except PyError (List (List Char))
  | [], _, _ => .ok []
  | link :: rest, imgPath?, imgData? =>
    if httpLink link then
      let status := (net link).1
      let content := (net link).2
      let p? := if status = 200 then some (base ++ '/' :: urlBasename link) else imgPath?
      let d? := if status = 200 then some content else imgData?
      match p?, d? with
      | some p, some d =>
        match downloadLoop net disk base rest (some p) (some d) with
        | .ok paths => .ok (p :: paths)
        | .error e => .error e
      | _, _ => .error .nameError
    else
      match disk link with
      | none => .error .typeError
      | some bytes =>
        match downloadLoop net disk base rest (some link) (some bytes) with
        | .ok paths => .ok (link :: paths)
        | .error e => .error e

/-- Function `download_images_from_markdown`: split into lines, run the marker scan,
download every collected link, and rejoin the surviving lines. -/
def download_images_from_markdown (net : List Char → ℕ × List ℕ)
    (disk : List Char → Option (List ℕ)) (base : List Char) (md : List Char) :
    Except PyError (List (List Char) × List Char) :=
  let lines := splitChar '\n' md
  let scanned := scanAux [] lines 0
  match downloadLoop net disk base scanned.1 none none with
  | .ok paths => .ok (paths, joinSep ['\n'] scanned.2)
  | .error e => .error e

/-- No marker line is immediately followed by another marker line. -/
def noAdjMarkers : List (List Char) → Bool
  | [] => true
  | [_] => true
  | a :: b :: t => !(isMarker a && isMarker b) && noAdjMarkers (b :: t)

/-- The marker lines of a document, in source order. -/
def markerLines (md : List Char) : List (List Char) :=
  (splitChar '\n' md).filter (fun l => isMarker l)

/-- The locators of the marker lines of a document, in source order. -/
def markerLocators (md : List Char) : List (List Char) :=
  (markerLines md).map extractLocator

end Md3d

namespace Md3d

lemma scanAux_stop (links ls : List (List Char)) (k : ℕ) (h : ls.length ≤ k) :
    scanAux links ls k = (links, ls) := by
  rw [scanAux]
  simp [Nat.not_lt.mpr h]

lemma scanAux_marker (links ls : List (List Char)) (k : ℕ) (h : k < ls.length)
    (hm : isMarker ls[k] = true) :
    scanAux links ls k =
      scanAux (links ++ [extractLocator ls[k]]) (ls.erase ls[k]) (k + 1) := by
  rw [scanAux]
  simp [h, hm]

lemma scanAux_other (links ls : List (List Char)) (k : ℕ) (h : k < ls.length)
    (hm : isMarker ls[k] = false) :
    scanAux links ls k = scanAux links ls (k + 1) := by
  rw [scanAux]
  simp [h, hm]

lemma noAdjMarkers_tail (a : List Char) (l : List (List Char))
    (h : noAdjMarkers (a :: l) = true) : noAdjMarkers l = true := by
  cases l with
  | nil => rfl
  | cons b t => simp [noAdjMarkers] at h ⊢; exact h.2

lemma noAdjMarkers_head (a b : List Char) (l : List (List Char))
    (h : noAdjMarkers (a :: b :: l) = true) (ha : isMarker a = true) :
    isMarker b = false := by
  simp [noAdjMarkers, ha] at h
  exact h.1

theorem scanAux_invariant : ∀ (links ls : List (List Char)) (k : ℕ),
    (∀ l ∈ ls.take k, isMarker l = false) →
    noAdjMarkers (ls.drop k) = true →
    scanAux links ls k =
      (links ++ ((ls.drop k).filter (fun l => isMarker l)).map extractLocator,
       ls.take k ++ (ls.drop k).filter (fun l => !isMarker l)) := by
  intro links ls k
  induction links, ls, k using scanAux.induct with
  | case1 links ls k h line hm ih =>
    intro h1 h2
    have hmem : line ∉ ls.take k := by
      intro hmem
      have := h1 _ hmem
      rw [hm] at this
      cases this
    have hdrop : ls.drop k = line :: ls.drop (k + 1) := List.drop_eq_getElem_cons h
    have herase : ls.erase line = ls.take k ++ ls.drop (k + 1) := by
      conv_lhs => rw [← List.take_append_drop k ls, hdrop]
      rw [List.erase_append_right _ hmem, List.erase_cons_head]
    have hklen : (ls.take k).length = k := by
      rw [List.length_take]
      omega
    rw [scanAux_marker links ls k h hm, herase]
    cases hd : ls.drop (k + 1) with
    | nil =>
      have hstop : scanAux (links ++ [extractLocator line]) (ls.take k ++ ls.drop (k + 1))
          (k + 1) = (links ++ [extractLocator line], ls.take k ++ ls.drop (k + 1)) := by
        apply scanAux_stop
        rw [hd]
        simp [hklen]
      rw [hd] at hstop
      rw [hstop, hdrop, hd]
      simp [hm]
    | cons b t =>
      have hb : isMarker b = false := by
        apply noAdjMarkers_head line b t _ hm
        rw [← hd, ← hdrop]
        exact h2
      have htake1 : (ls.take k ++ ls.drop (k + 1)).take (k + 1) = ls.take k ++ [b] := by
        rw [List.take_append_eq_append_take, List.take_take, hklen]
        have e1 : min (k + 1) k = k := by omega
        have e2 : k + 1 - k = 1 := by omega
        rw [e1, e2, hd]
        simp
      have hdrop1 : (ls.take k ++ ls.drop (k + 1)).drop (k + 1) = t := by
        rw [List.drop_append_eq_append_drop, hklen]
        have e1 : (ls.take k).drop (k + 1) = [] := by
          apply List.drop_eq_nil_of_le
          omega
        have e2 : k + 1 - k = 1 := by omega
        rw [e1, e2, hd]
        simp
      rw [herase] at ih
      rw [htake1, hdrop1] at ih
      have ihh := ih ?hc1 ?hc2
      case hc1 =>
        intro l hl
        rw [List.mem_append] at hl
        rcases hl with hl | hl
        · exact h1 _ hl
        · simp at hl; rw [hl]; exact hb
      case hc2 =>
        apply noAdjMarkers_tail b
        apply noAdjMarkers_tail line
        rw [← hd, ← hdrop]
        exact h2
      rw [hd] at ihh
      rw [ihh, hdrop, hd]
      simp [hm, hb]
  | case2 links ls k h line hm ih =>
    intro h1 h2
    have hm' : isMarker line = false := by
      revert hm
      cases isMarker line <;> simp
    have hdrop : ls.drop k = line :: ls.drop (k + 1) := List.drop_eq_getElem_cons h
    have htake : ls.take (k + 1) = ls.take k ++ [line] := by
      rw [List.take_succ, List.getElem?_eq_getElem h]
      rfl
    rw [scanAux_other links ls k h hm']
    rw [ih ?hd1 ?hd2]
    case hd1 =>
      rw [htake]
      intro l hl
      rw [List.mem_append] at hl
      rcases hl with hl | hl
      · exact h1 _ hl
      · simp at hl; rw [hl]; exact hm'
    case hd2 =>
      apply noAdjMarkers_tail line
      rw [← hdrop]
      exact h2
    rw [htake, hdrop]
    simp [hm']
  | case3 links ls k h =>
    intro h1 h2
    rw [scanAux_stop _ _ _ (Nat.not_lt.mp h)]
    rw [List.drop_eq_nil_of_le (Nat.not_lt.mp h), List.take_of_length_le (Nat.not_lt.mp h)]
    simp

end Md3d

namespace Md3d

/-- Function `split_markdown` yields one more section than there are delimiter
occurrences. -/
lemma split_markdown_length (md : List Char) :
    (split_markdown md).length = countDashes md + 1 := by
  induction md using split_markdown.induct with
  | case1 rest ih => simp [split_markdown, countDashes, ih]
  | case2 c rest hne hnil ih =>
    rw [hnil] at ih
    simp at ih
  | case3 c rest hne s ss hsplit ih =>
    have h1 : split_markdown (c :: rest) = (c :: s) :: ss := by
      rw [split_markdown]
      · rw [hsplit]
      · exact hne
    have h2 : countDashes (c :: rest) = countDashes rest := by
      rw [countDashes]
      exact hne
    rw [h1, h2, ← ih, hsplit]
    simp
  | case4 => simp [split_markdown, countDashes]

/-- Joining the sections of `split_markdown` with the delimiter restores the
document: each section is exactly the text between two consecutive
delimiter occurrences, in order, empty sections included. -/
lemma split_markdown_join (md : List Char) :
    joinSep dashSep (split_markdown md) = md := by
  induction md using split_markdown.induct with
  | case1 rest ih =>
    have hne2 : split_markdown rest ≠ [] := by
      have := split_markdown_length rest
      intro h; rw [h] at this; simp at this
    obtain ⟨s, ss, hss⟩ : ∃ s ss, split_markdown rest = s :: ss := by
      cases h : split_markdown rest with
      | nil => exact absurd h hne2
      | cons s ss => exact ⟨s, ss, rfl⟩
    rw [split_markdown, hss]
    rw [hss] at ih
    simp [joinSep, dashSep] at ih ⊢
    exact ih
  | case2 c rest hne hnil ih =>
    have := split_markdown_length rest
    rw [hnil] at this; simp at this
  | case3 c rest hne s ss hsplit ih =>
    have h1 : split_markdown (c :: rest) = (c :: s) :: ss := by
      rw [split_markdown]
      · rw [hsplit]
      · exact hne
    rw [h1]
    rw [hsplit] at ih
    cases ss with
    | nil => simpa [joinSep] using ih
    | cons t ts =>
      simp [joinSep] at ih ⊢
      exact ih
  | case4 => simp [split_markdown, joinSep]

/-- When every collected link resolves — a remote link's fetch returns
status 200, a local link is present on disk — the download loop succeeds and
returns exactly one asset path per link, in order: the basename under the
asset directory for remote links, the link's own path for local ones. -/
lemma downloadLoop_ok (net : List Char → ℕ × List ℕ)
    (disk : List Char → Option (List ℕ)) (base : List Char) :
    ∀ (links : List (List Char)) (p0 : Option (List Char)) (d0 : Option (List ℕ)),
    (∀ l ∈ links, (httpLink l = true → (net l).1 = 200) ∧
      (httpLink l = false → (disk l).isSome)) →
    downloadLoop net disk base links p0 d0 = .ok (links.map (assetPath base)) := by
  intro links
  induction links with
  | nil => intro p0 d0 _; rfl
  | cons link rest ih =>
    intro p0 d0 hall
    have h1 := hall link (by simp)
    by_cases hh : httpLink link = true
    · have hs : (net link).1 = 200 := h1.1 hh
      rw [downloadLoop]
      simp only [hh, if_true, hs, if_pos]
      rw [ih _ _ (fun l hl => hall l (by simp [hl]))]
      simp [assetPath, hh]
    · have hh' : httpLink link = false := by
        revert hh; cases httpLink link <;> simp
      obtain ⟨bytes, hb⟩ := Option.isSome_iff_exists.mp (h1.2 hh')
      rw [downloadLoop]
      simp only [hh', Bool.false_eq_true, if_false, hb]
      rw [ih _ _ (fun l hl => hall l (by simp [hl]))]
      simp [assetPath, hh']

/-- A document of exactly two consecutive marker lines: the first is matched
and removed, the cursor then stands past the shortened list, so the second is
never examined. -/
lemma scan_two_markers (l1 l2 : List Char) (h1 : isMarker l1 = true)
    (h2 : isMarker l2 = true) :
    scanAux [] [l1, l2] 0 = ([extractLocator l1], [l2]) := by
  have e0 : ([l1, l2] : List (List Char))[0] = l1 := rfl
  rw [scanAux_marker [] [l1, l2] 0 (by simp) (by rw [e0]; exact h1)]
  rw [e0, List.erase_cons_head]
  rw [scanAux_stop _ _ _ (by simp)]
  simp

/-- Three consecutive marker lines: the first is matched, the second skipped,
the third matched again (its `remove` deletes the first remaining line equal
to it, which by content equality leaves exactly one line equal to `l2`). -/
lemma scan_three_markers (l1 l2 l3 : List Char) (h1 : isMarker l1 = true)
    (h2 : isMarker l2 = true) (h3 : isMarker l3 = true) :
    scanAux [] [l1, l2, l3] 0 = ([extractLocator l1, extractLocator l3], [l2]) := by
  have e0 : ([l1, l2, l3] : List (List Char))[0] = l1 := rfl
  rw [scanAux_marker [] [l1, l2, l3] 0 (by simp) (by rw [e0]; exact h1)]
  rw [e0, List.erase_cons_head]
  have e1 : ([l2, l3] : List (List Char))[1] = l3 := rfl
  rw [scanAux_marker _ [l2, l3] 1 (by simp) (by rw [e1]; exact h3)]
  rw [e1]
  by_cases hc : l2 = l3
  · subst hc
    rw [List.erase_cons_head]
    rw [scanAux_stop _ _ _ (by simp)]
    simp
  · rw [List.erase_cons_tail, List.erase_cons_head]
    · rw [scanAux_stop _ _ _ (by simp)]
      simp
    · simp [hc]

/-- A marker line, a non-marker line, then a marker line: both markers are
matched (the non-marker in between absorbs the skip). -/
lemma scan_marker_mid (l1 x l3 : List Char) (h1 : isMarker l1 = true)
    (hx : isMarker x = false) (h3 : isMarker l3 = true) :
    scanAux [] [l1, x, l3] 0 = ([extractLocator l1, extractLocator l3], [x]) := by
  have e0 : ([l1, x, l3] : List (List Char))[0] = l1 := rfl
  rw [scanAux_marker [] [l1, x, l3] 0 (by simp) (by rw [e0]; exact h1)]
  rw [e0, List.erase_cons_head]
  have e1 : ([x, l3] : List (List Char))[1] = l3 := rfl
  rw [scanAux_marker _ [x, l3] 1 (by simp) (by rw [e1]; exact h3)]
  rw [e1]
  have hne : x ≠ l3 := by
    intro hcontra
    rw [hcontra, h3] at hx
    cases hx
  rw [List.erase_cons_tail, List.erase_cons_head]
  · rw [scanAux_stop _ _ _ (by simp)]
    simp
  · simp [hne]

end Md3d

namespace Md3d

/-- Searching for `')'` in a list that ends with `')'` and contains no other
`')'` finds exactly the final position. -/
lemma findFromIdx_append_last (s : List Char) (hno : ')' ∉ s) :
    ∀ k, findFromIdx ')' (s ++ [')']) k = some (s.length + k) := by
  induction s with
  | nil => intro k; simp [findFromIdx]
  | cons a t ih =>
    intro k
    have ha : a ≠ ')' := by
      intro h; exact hno (by simp [h])
    have ht : ')' ∉ t := fun h => hno (by simp [h])
    rw [List.cons_append, findFromIdx]
    simp only [if_neg ha]
    rw [ih ht (k + 1)]
    congr 1
    simp
    omega

/-- A successful `find` means the needle occurs at the reported index. -/
lemma findSub_drop (sub : List Char) :
    ∀ (l : List Char) (i : ℕ), findSub sub l = some i →
      List.isPrefixOf sub (l.drop i) = true := by
  intro l
  induction l with
  | nil =>
    intro i h
    rw [findSub] at h
    by_cases hs : sub = ([] : List Char)
    · simp [hs] at h ⊢
    · simp [hs] at h
  | cons c t ih =>
    intro i h
    rw [findSub] at h
    by_cases hp : List.isPrefixOf sub (c :: t) = true
    · simp [hp] at h
      rw [← h]
      simpa using hp
    · simp [hp] at h
      obtain ⟨j, hj, hji⟩ := h
      rw [← hji]
      simpa using ih j hj

end Md3d

namespace Md3d

/-- When the locator the specification describes (the text between `](` and
the final `)`) contains no `)` of its own, the code's first-`)` search agrees
with the specification's final-`)` description. -/
lemma extractLocator_eq_specLocator (line : List Char) (hm : isMarker line = true)
    (hno : ')' ∉ specLocator line) : extractLocator line = specLocator line := by
  have hm' := hm
  rw [isMarker] at hm'
  simp only [Bool.and_eq_true, beq_iff_eq] at hm'
  obtain ⟨⟨hpre, hfind⟩, hlast⟩ := hm'
  obtain ⟨i, hi⟩ := Option.isSome_iff_exists.mp hfind
  obtain ⟨B, hB⟩ := List.getLast?_eq_some_iff.mp hlast
  have hdropi := findSub_drop _ line i hi
  obtain ⟨t, ht⟩ := List.isPrefixOf_iff_prefix.mp hdropi
  have hlen : line.length - i = t.length + 2 := by
    have := congrArg List.length ht
    simp at this
    omega
  have hile : i + 2 ≤ line.length := by omega
  have hstrict : i + 2 < line.length := by
    rcases Nat.lt_or_ge (i + 2) line.length with h | h
    · exact h
    · exfalso
      have ht0 : t = [] := by
        have : t.length = 0 := by omega
        exact List.length_eq_zero.mp this
      have ht' : line.drop i = [']', '('] := by
        rw [← ht, ht0]
        simp
      have htd := List.take_append_drop i line
      rw [ht'] at htd
      have heq : (line.take i ++ [']']) ++ ['('] = B ++ [')'] := by
        rw [List.append_assoc]
        simpa using htd.trans hB
      have := (List.append_inj' heq (by simp)).2
      simp at this
  have hBlen : line.length = B.length + 1 := by rw [hB]; simp
  have hi2B : i + 2 ≤ B.length := by omega
  have hrev : line.reverse = ')' :: B.reverse := by rw [hB]; simp
  have hlastIdx : findLastIdx ')' line = some (line.length - 1) := by
    rw [findLastIdx, hrev, findFromIdx]
    simp
  have hspec : specLocator line = B.drop (i + 2) := by
    rw [specLocator]
    simp only [hi, hlastIdx]
    have h1 : line.length - 1 = B.length := by omega
    rw [h1, hB, List.take_left]
  rw [hspec] at hno
  have hdrop2 : line.drop (i + 2) = B.drop (i + 2) ++ [')'] := by
    rw [hB, List.drop_append_eq_append_drop]
    have h0 : i + 2 - B.length = 0 := by omega
    rw [h0]
    rfl
  have hfindc : findCharFrom ')' (i + 2) line = some B.length := by
    rw [findCharFrom, hdrop2, findFromIdx_append_last _ hno 0]
    simp [List.length_drop]
    omega
  rw [extractLocator]
  simp only [hi, hfindc]
  rw [hspec, hB, List.take_left]

end Md3d

namespace Md3d

lemma mem_cameraKeyframeEvents (n : ℕ) (curves : ℕ → ℕ) (offset : ℚ) (f : ℕ) (x : ℚ) :
    (f, x) ∈ cameraKeyframeEvents n curves offset ↔
      ∃ i, i < n ∧ f = i + 1 ∧ x = offset * (i : ℚ) := by
  simp [cameraKeyframeEvents, List.mem_flatMap, List.mem_replicate, List.mem_range,
    Prod.ext_iff]

end Md3d

namespace Md3d

/-- Claim C1, counterexample.  The claim "the computed right edge of the image
panel equals `i*p + p/2` independent of the aspect ratio" fails at index 1
with aspect ratio 1: the code's extra `+ i / plane.scale.x` term makes the
right edge `4`, whereas `i*p + p/2` is `3` for the `text_plane_width` the
function actually uses (`p = 2`) and `4.5` for the slide pitch (`p = 3`). -/
theorem c1_right_edge_counterexample :
    imagePlaneRightEdge 1 1 text_plane_width ≠
        (1 : ℚ) * text_plane_width + text_plane_width / 2 ∧
      imagePlaneRightEdge 1 1 text_plane_width ≠ (1 : ℚ) * slidePitch + slidePitch / 2 := by
  constructor <;>
    norm_num [imagePlaneRightEdge, imagePlaneLocX, rightEdgeTextPlane, textPlaneCenterX,
      imagePlaneDimX, imgScaleX, text_plane_width, slidePitch]

/-- Claim C1, amended.  For the image at index `i` with aspect ratio `a`, the
computed right edge equals `i*w + w/2 + i/a` where `w = text_plane_width = 2`
(not the slide pitch 3): it depends on the aspect ratio whenever `i ≥ 1`, and
only the image at index 0 has its right edge at the text plane's right edge
independent of `a`. -/
theorem c1_right_edge_amended (i : ℕ) (a : ℚ) (ha : a ≠ 0) :
    imagePlaneRightEdge i a text_plane_width =
        (i : ℚ) * text_plane_width + text_plane_width / 2 + (i : ℚ) / a ∧
      imagePlaneRightEdge 0 a text_plane_width = text_plane_width / 2 := by
  constructor
  · simp only [imagePlaneRightEdge, imagePlaneLocX, rightEdgeTextPlane, textPlaneCenterX,
      imagePlaneDimX, imgScaleX]
    field_simp
    ring
  · simp [imagePlaneRightEdge, imagePlaneLocX, rightEdgeTextPlane, textPlaneCenterX,
      imagePlaneDimX, imgScaleX]

theorem c1_right_edge_amended_witness :
    (2 : ℚ) ≠ 0 ∧
      (imagePlaneRightEdge 3 2 text_plane_width =
          ((3 : ℕ) : ℚ) * text_plane_width + text_plane_width / 2 + ((3 : ℕ) : ℚ) / 2 ∧
        imagePlaneRightEdge 0 2 text_plane_width = text_plane_width / 2) :=
  ⟨by simp, c1_right_edge_amended 3 2 (by simp)⟩

/-- Claim C3, confirmed.  For a deck of `n` slides the set of keyed frame
numbers is exactly `{1, .., n}` — a frame is keyed iff `1 ≤ f ≤ n` — and every
keyframe inserted at frame `f` carries camera X `pitch * (f - 1)` with
`pitch = 3`. -/
theorem c3_camera_keyframes (n : ℕ) (curves : ℕ → ℕ) (f : ℕ) :
    ((∃ x, (f, x) ∈ cameraKeyframeEvents n curves slidePitch) ↔ 1 ≤ f ∧ f ≤ n) ∧
      ∀ x, (f, x) ∈ cameraKeyframeEvents n curves slidePitch →
        x = slidePitch * ((f : ℚ) - 1) := by
  constructor
  · constructor
    · rintro ⟨x, hx⟩
      obtain ⟨i, hi, hf, _⟩ := (mem_cameraKeyframeEvents n curves slidePitch f x).mp hx
      omega
    · rintro ⟨h1, h2⟩
      refine ⟨slidePitch * ((f - 1 : ℕ) : ℚ),
        (mem_cameraKeyframeEvents n curves slidePitch f _).mpr ⟨f - 1, by omega, by omega, rfl⟩⟩
  · intro x hx
    obtain ⟨i, hi, hf, hx'⟩ := (mem_cameraKeyframeEvents n curves slidePitch f x).mp hx
    subst hf
    rw [hx']
    push_cast
    ring

theorem c3_camera_keyframes_witness :
    (∃ x, (2, x) ∈ cameraKeyframeEvents 2 (fun _ => 1) slidePitch) ∧
      ∀ x, (2, x) ∈ cameraKeyframeEvents 2 (fun _ => 1) slidePitch →
        x = slidePitch * (((2 : ℕ) : ℚ) - 1) :=
  ⟨(c3_camera_keyframes 2 (fun _ => 1) 2).1.mpr (by decide),
    (c3_camera_keyframes 2 (fun _ => 1) 2).2⟩

/-- Claim C4, confirmed.  `split_markdown` is a pure function: a document with
`k` (greedy, non-overlapping) occurrences of the literal `---` yields exactly
`k + 1` sections, and joining the sections back with `---` restores the
document — so section `i` is exactly the `i`-th substring between delimiters,
in order, with empty sections kept as empty strings at their index. -/
theorem c4_split_sections (md : List Char) :
    (split_markdown md).length = countDashes md + 1 ∧
      joinSep dashSep (split_markdown md) = md :=
  ⟨split_markdown_length md, split_markdown_join md⟩

/-- Claim C5, counterexample.  For the document `"a---"` the code renders both
sections (the second is empty), so `len(svg_files) = 2` and the backdrop width
is `12`, while the number of non-empty sections is `1`; the claim's
`6 * slideCount = 6` does not match. -/
theorem c5_backdrop_counterexample :
    backdrop_width (convert_to_svgs "/docs".data (split_markdown "a---".data)) = 12 ∧
      slideCountSpec (split_markdown "a---".data) = 1 ∧ (12 : ℤ) ≠ 6 * 1 := by
  refine ⟨by decide, by decide, by decide⟩

/-- Claim C5, amended.  The backdrop's width is exactly `6 *` the number of
sections (`len(svg_files)`, which includes empty sections), not `6 *` the
number of non-empty sections; its height is the fixed constant 10.  The width
is strictly derived from the section count. -/
theorem c5_backdrop_amended (base : List Char) (sections : List (List Char)) :
    backdrop_width (convert_to_svgs base sections) = 6 * (sections.length : ℤ) ∧
      backdrop_height = 10 := by
  constructor
  · simp [backdrop_width, convert_to_svgs]
    ring
  · rfl

end Md3d

namespace Md3d

/-- Claim C6, counterexample.  On macOS the install path is created *before*
the download: after a failed (status 404) download from a fresh machine,
nothing was extracted, yet the existence check reports installed, and the
next run's guard does not retry the installation. -/
theorem c6_install_counterexample :
    is_installed (macosInstall freshState 404) = true ∧
      (macosInstall freshState 404).appExtracted = false ∧
      (macosInstall freshState 404).dmgWritten = false ∧
      (ensureInstalled (fun s => macosInstall s 200) (macosInstall freshState 404)).2 = false := by
  refine ⟨by decide, by decide, by decide, by decide⟩

/-- Claim C6, amended.  If the macOS installer's download fails with a non-200
response, the failure is reported and nothing is downloaded or extracted —
but the install path has already been created before the download, so the
install-path existence check reports *installed* afterwards and a
re-invocation performs no retry. -/
theorem c6_install_amended (s : InstallerState) (status : ℕ) (h : status ≠ 200) :
    (macosInstall s status).dmgWritten = s.dmgWritten ∧
      (macosInstall s status).appExtracted = s.appExtracted ∧
      is_installed (macosInstall s status) = true ∧
      ∀ install, ensureInstalled install (macosInstall s status) = (macosInstall s status, false) := by
  refine ⟨by simp [macosInstall, h], by simp [macosInstall, h], by simp [macosInstall, h, is_installed], ?_⟩
  intro install
  simp [ensureInstalled, is_installed, macosInstall, h]

theorem c6_install_amended_witness :
    (404 : ℕ) ≠ 200 ∧
      ((macosInstall freshState 404).dmgWritten = freshState.dmgWritten ∧
        (macosInstall freshState 404).appExtracted = freshState.appExtracted ∧
        is_installed (macosInstall freshState 404) = true ∧
        ∀ install, ensureInstalled install (macosInstall freshState 404) =
          (macosInstall freshState 404, false)) :=
  ⟨by decide, c6_install_amended freshState 404 (by decide)⟩

/-- Claim C8, confirmed.  When the tool is already installed, running the
guard is idempotent: the existence check succeeds, `install()` is never
invoked on either run (the returned flag is `false`, i.e. no network download
or extraction call happens), and the state is unchanged. -/
theorem c8_installer_idempotent (install : InstallerState → InstallerState)
    (s : InstallerState) (h : is_installed s = true) :
    ensureInstalled install s = (s, false) ∧
      ensureInstalled install (ensureInstalled install s).1 = (s, false) := by
  constructor
  · simp [ensureInstalled, h]
  · simp [ensureInstalled, h]

theorem c8_installer_idempotent_witness :
    is_installed ⟨true, false, false⟩ = true ∧
      (ensureInstalled (fun s => macosInstall s 200) ⟨true, false, false⟩ =
          (⟨true, false, false⟩, false) ∧
        ensureInstalled (fun s => macosInstall s 200)
            (ensureInstalled (fun s => macosInstall s 200) ⟨true, false, false⟩).1 =
          (⟨true, false, false⟩, false)) :=
  ⟨by decide, c8_installer_idempotent (fun s => macosInstall s 200) ⟨true, false, false⟩ (by decide)⟩

end Md3d

namespace Md3d

/-- Document consisting of two consecutive embedded-image marker lines. -/
def mdPairMarkers : List Char := "![a](x.png)\n![b](y.png)".data

/-- Disk oracle holding both referenced local images. -/
def diskXY : List Char → Option (List ℕ) := fun l =>
  if l = "x.png".data then some [1] else if l = "y.png".data then some [2] else none

/-- Network oracle that always fails (no remote links are consulted). -/
def net404 : List Char → ℕ × List ℕ := fun _ => (404, [])

/-- Claim C2, counterexample.  The document has `M = 2` marker lines, both
images exist on disk, yet extraction returns only one path and the second
marker line survives in the returned document text: removing the matched
line while iterating skips the line that follows it. -/
theorem c2_extraction_counterexample :
    download_images_from_markdown net404 diskXY "/imgs".data mdPairMarkers =
        .ok (["x.png".data], "![b](y.png)".data) ∧
      (markerLines mdPairMarkers).length = 2 ∧
      isMarker "![b](y.png)".data = true := by
  refine ⟨?_, by decide, by decide⟩
  have hsplit : splitChar '\n' mdPairMarkers =
      ["![a](x.png)".data, "![b](y.png)".data] := by decide
  have hscan := scan_two_markers "![a](x.png)".data "![b](y.png)".data (by decide) (by decide)
  simp only [download_images_from_markdown]
  rw [hsplit, hscan]
  rfl

/-- Claim C2, amended.  Provided no marker line immediately follows another
marker line and every referenced image resolves (a local file is present, a
remote fetch returns status 200), extraction returns an ordered path list of
length exactly `M` — the i-th returned path is the asset path of the i-th
marker occurrence in source order: the basename under the asset directory
for a remote URL, the original path for a local file — and every marker line
is removed from the returned document text. -/
theorem c2_extraction_amended (md : List Char) (net : List Char → ℕ × List ℕ)
    (disk : List Char → Option (List ℕ)) (base : List Char)
    (hadj : noAdjMarkers (splitChar '\n' md) = true)
    (hlinks : ∀ l ∈ markerLocators md, (httpLink l = true → (net l).1 = 200) ∧
      (httpLink l = false → (disk l).isSome)) :
    download_images_from_markdown net disk base md =
        .ok ((markerLocators md).map (assetPath base),
          joinSep ['\n'] ((splitChar '\n' md).filter (fun l => !isMarker l))) ∧
      ((markerLocators md).map (assetPath base)).length = (markerLines md).length := by
  have hscan := scanAux_invariant [] (splitChar '\n' md) 0 (by simp) (by simpa using hadj)
  simp only [List.take_zero, List.drop_zero, List.nil_append] at hscan
  have hall : ∀ l ∈ ((splitChar '\n' md).filter (fun l => isMarker l)).map extractLocator,
      (httpLink l = true → (net l).1 = 200) ∧ (httpLink l = false → (disk l).isSome) := by
    simpa [markerLocators, markerLines] using hlinks
  constructor
  · simp only [download_images_from_markdown]
    rw [hscan]
    rw [downloadLoop_ok net disk base _ none none hall]
    simp [markerLocators, markerLines]
  · simp [markerLocators, markerLines]

/-- Disk oracle for the witness: only `x.png` exists. -/
def diskX : List Char → Option (List ℕ) := fun l =>
  if l = "x.png".data then some [1] else none

/-- Network oracle for the witness: every fetch succeeds with status 200. -/
def net200 : List Char → ℕ × List ℕ := fun _ => (200, [7])

/-- Witness document mixing a local and a remote image, markers separated by
a plain line. -/
def mdMixed : List Char := "![a](x.png)\nhello\n![b](http://h/a.png)".data

theorem c2_extraction_amended_witness :
    noAdjMarkers (splitChar '\n' mdMixed) = true ∧
      (∀ l ∈ markerLocators mdMixed,
        (httpLink l = true → (net200 l).1 = 200) ∧
          (httpLink l = false → (diskX l).isSome)) ∧
      (download_images_from_markdown net200 diskX "/i".data mdMixed =
          .ok ((markerLocators mdMixed).map (assetPath "/i".data),
            joinSep ['\n'] ((splitChar '\n' mdMixed).filter
              (fun l => !isMarker l))) ∧
        ((markerLocators mdMixed).map (assetPath "/i".data)).length =
          (markerLines mdMixed).length) :=
  ⟨by decide, by decide,
    c2_extraction_amended mdMixed net200 diskX "/i".data
      (by decide) (by decide)⟩

/-- Document with a marker line, a plain line, and a second marker line whose
remote fetch will fail. -/
def mdHttpPair : List Char := "![a](http://h/a.png)\nx\n![b](http://h/b.png)".data

/-- Network oracle: the first image downloads (status 200), the second
returns status 404. -/
def netAB : List Char → ℕ × List ℕ := fun link =>
  if link = "http://h/a.png".data then (200, [7]) else (404, [])

/-- Disk oracle with no local files (none are consulted). -/
def diskNone : List Char → Option (List ℕ) := fun _ => none

/-- Claim C7, code bug.  The second image's fetch returns a non-success
status, yet the run does not fail with a download error: because the non-200
branch assigns nothing, the loop reuses the previous iteration's `img_path`
and `img_data`, rewrites the first image's file, and appends the first
image's path a second time.  The claimed `DownloadError` propagation never
happens. -/
theorem c7_download_failure_eval :
    (netAB "http://h/b.png".data).1 ≠ 200 ∧
      download_images_from_markdown netAB diskNone "/img".data mdHttpPair =
        .ok (["/img/a.png".data, "/img/a.png".data], ['x']) := by
  refine ⟨by decide, ?_⟩
  have hsplit : splitChar '\n' mdHttpPair =
      ["![a](http://h/a.png)".data, "x".data, "![b](http://h/b.png)".data] := by decide
  have hscan := scan_marker_mid "![a](http://h/a.png)".data "x".data
    "![b](http://h/b.png)".data (by decide) (by decide) (by decide)
  simp only [download_images_from_markdown]
  rw [hsplit, hscan]
  rfl

/-- Claim C9, counterexample.  For the marker line `![a](b)c)` the code
extracts the text up to the *first* `)` after `](`, namely `b`, not the text
up to the final `)` of the line, which is `b)c`. -/
theorem c9_locator_counterexample :
    isMarker "![a](b)c)".data = true ∧
      extractLocator "![a](b)c)".data = "b".data ∧
      specLocator "![a](b)c)".data = "b)c".data ∧
      extractLocator "![a](b)c)".data ≠ specLocator "![a](b)c)".data := by
  refine ⟨by decide, by decide, by decide, by decide⟩

/-- Claim C9, amended.  The extracted locator is the substring between `](`
and the *first* `)` after it; it coincides with the substring up to the
final `)` of the line exactly when that spec-described locator contains no
`)` of its own (the common case of parenthesis-free paths and URLs). -/
theorem c9_locator_amended (line : List Char) (hm : isMarker line = true)
    (hno : ')' ∉ specLocator line) : extractLocator line = specLocator line :=
  extractLocator_eq_specLocator line hm hno

theorem c9_locator_amended_witness :
    isMarker "![a](x.png)".data = true ∧ ')' ∉ specLocator "![a](x.png)".data ∧
      extractLocator "![a](x.png)".data = specLocator "![a](x.png)".data :=
  ⟨by decide, by decide,
    c9_locator_amended "![a](x.png)".data (by decide) (by decide)⟩

/-- Claim C10, counterexample.  In a document of three consecutive marker
lines the pair `(line 2, line 3)` consists of two consecutive marker lines,
yet the first of that pair is *not* extracted while the second *is*: the
scan extracts lines 1 and 3 and leaves only line 2 behind, refuting "for
every document containing two consecutive image-marker lines, only the first
of the pair is extracted and the second remains". -/
theorem c10_consecutive_counterexample :
    scanAux [] (splitChar '\n' "![1](a)\n![2](b)\n![3](c)".data) 0 =
        (["a".data, "c".data], ["![2](b)".data]) ∧
      isMarker "![2](b)".data = true ∧ isMarker "![3](c)".data = true := by
  refine ⟨?_, by decide, by decide⟩
  have hsplit : splitChar '\n' "![1](a)\n![2](b)\n![3](c)".data =
      ["![1](a)".data, "![2](b)".data, "![3](c)".data] := by decide
  rw [hsplit]
  rw [scan_three_markers "![1](a)".data "![2](b)".data "![3](c)".data
    (by decide) (by decide) (by decide)]
  decide

/-- Claim C10, amended.  The line immediately following a matched marker line
is never examined: for a document of exactly two consecutive marker lines
only the first is extracted and the second remains; but the skipped line is
not itself "matched", so with three consecutive marker lines the third is
extracted again — the original universal claim holds only for the pair
following a *matched* line. -/
theorem c10_consecutive_amended (l1 l2 l3 : List Char) (h1 : isMarker l1 = true)
    (h2 : isMarker l2 = true) (h3 : isMarker l3 = true) :
    scanAux [] [l1, l2] 0 = ([extractLocator l1], [l2]) ∧
      scanAux [] [l1, l2, l3] 0 = ([extractLocator l1, extractLocator l3], [l2]) :=
  ⟨scan_two_markers l1 l2 h1 h2, scan_three_markers l1 l2 l3 h1 h2 h3⟩

theorem c10_consecutive_amended_witness :
    isMarker "![1](a)".data = true ∧ isMarker "![2](b)".data = true ∧
      isMarker "![3](c)".data = true ∧
      (scanAux [] ["![1](a)".data, "![2](b)".data] 0 =
          ([extractLocator "![1](a)".data], ["![2](b)".data]) ∧
        scanAux [] ["![1](a)".data, "![2](b)".data, "![3](c)".data] 0 =
          ([extractLocator "![1](a)".data, extractLocator "![3](c)".data],
            ["![2](b)".data])) :=
  ⟨by decide, by decide, by decide,
    c10_consecutive_amended "![1](a)".data "![2](b)".data "![3](c)".data
      (by decide) (by decide) (by decide)⟩

end Md3d
